import Mathlib

/-!
Verification of the rippkgs package indexer and fuzzy search against its
specification.  The definitions below are shallow embeddings of the Rust
sources:

* `rippkgs-index/src/main.rs` — the registry-to-index normalization loop;
* `src/bin/index/main.rs` — the index build pipeline (`main`, `write_index`);
* `src/bin/search/fuzzy.rs` — the search ranker (`search`, `scalar_fuzzy_score`).
-/

deriving instance DecidableEq for Except

/-- Package metadata carried under the `meta` key of a raw registry entry.
The sources use the fields `description` and `long_description`. -/
structure Meta where
  description : Option String
  long_description : Option String
  deriving DecidableEq, Repr

/-- One raw registry entry (`data::PackageInfo`), as consumed by the
normalization loop in `rippkgs-index/src/main.rs`: optional `pname`,
optional `version`, `outputs` (a map from output label to store path,
embedded as an association list) and optional `meta`. -/
structure PackageInfo where
  pname : Option String
  version : Option String
  outputs : List (String × String)
  meta : Option Meta
  deriving DecidableEq, Repr

/-- The row inserted per indexed package by the normalization loop, with
the parameters of the insert in source order: `attr`, `store_path`,
`name`, `version`, `description`, `long_description`.  (In Lean, `attr`
stands for the Rust field named after the registry attribute, since
`attribute` is a reserved word.) -/
structure Record where
  attr : String
  store_path : String
  name : String
  version : String
  description : Option String
  long_description : Option String
  deriving DecidableEq, Repr

/-- Typed build errors named by the specification (§7).  The normalization
loop in `rippkgs-index/src/main.rs` never constructs any of these; the type
exists so that the specification's claimed error channel is statable
against the code. -/
inductive IndexError where
  | missingVersion
  deriving DecidableEq, Repr

/-- Outcome of normalizing a single `(attr, info)` registry pair in the
loop body of `main` in `rippkgs-index/src/main.rs`.  `skip` is the
`continue` taken when `outputs` has no "out" entry; `panic` is the
uncontrolled abort of `info.version.as_ref().unwrap()` on a missing
version; `typedError` is never produced by the code (it is the
specification's §7 error channel, present only for statability). -/
inductive NormOutcome where
  | skip
  | record (r : Record)
  | panic
  | typedError (e : IndexError)
  deriving DecidableEq, Repr

/-- The lookup `info.outputs.get("out")`: the store path registered under
the output label "out", if any. -/
def lookupOut (outputs : List (String × String)) : Option String :=
  (outputs.find? fun kv => kv.1 == "out").map fun kv => kv.2

/-- The body of the normalization loop in `rippkgs-index/src/main.rs` for
one `(attr, info)` registry pair:

* no "out" output: the loop does `continue`, the entry is skipped;
* missing `version`: `info.version.as_ref().unwrap()` panics;
* otherwise a row is built with `name = pname.unwrap_or(attr)`,
  `store_path = outputs["out"]`, and the two descriptions copied through
  `meta.as_ref().map(...).flatten()`. -/
def normalizeEntry (attr : String) (info : PackageInfo) : NormOutcome :=
  match lookupOut info.outputs with
  | none => .skip
  | some out =>
    match info.version with
    | none => .panic
    | some v =>
      .record
        { attr := attr
          store_path := out
          name := info.pname.getD attr
          version := v
          description := (info.meta.map Meta.description).join
          long_description := (info.meta.map Meta.long_description).join }

/-- The whole normalization loop of `rippkgs-index/src/main.rs`: registry
entries are processed in iteration order; a skipped entry contributes
nothing, a panic aborts the build (modelled as `Except.error`), and every
surviving entry contributes exactly its row. -/
def normalizeRegistry : List (String × PackageInfo) → Except Unit (List Record)
  | [] => .ok []
  | (attr, info) :: rest =>
    match normalizeEntry attr info with
    | .skip => normalizeRegistry rest
    | .record r => (normalizeRegistry rest).map fun l => r :: l
    | .panic => .error ()
    | .typedError _ => .error ()

/-- The row contributed by a single registry pair, if any. -/
def entryRow (ai : String × PackageInfo) : Option Record :=
  match normalizeEntry ai.1 ai.2 with
  | .record r => some r
  | _ => none

theorem entryRow_attr (a : String) (i : PackageInfo) (r : Record)
    (h : entryRow (a, i) = some r) : r.attr = a := by
  unfold entryRow normalizeEntry at h
  cases hOut : lookupOut i.outputs <;> rw [hOut] at h
  · simp at h
  · cases hv : i.version <;> rw [hv] at h
    · simp at h
    · simp at h
      rw [← h]

theorem normalizeEntry_record_iff (a : String) (i : PackageInfo)
    (hv : (lookupOut i.outputs).isSome → i.version.isSome) :
    (entryRow (a, i)).isSome = (lookupOut i.outputs).isSome := by
  unfold entryRow normalizeEntry
  cases hOut : lookupOut i.outputs
  · simp
  · have : i.version.isSome := hv (by rw [hOut]; rfl)
    cases hver : i.version
    · rw [hver] at this; simp at this
    · simp

theorem normalizeRegistry_eq_filterMap (R : List (String × PackageInfo))
    (hv : ∀ ai ∈ R, (lookupOut ai.2.outputs).isSome → ai.2.version.isSome) :
    normalizeRegistry R = .ok (R.filterMap entryRow) := by
  induction R with
  | nil => rfl
  | cons head rest ih =>
    obtain ⟨a, i⟩ := head
    have hhead := hv (a, i) (List.mem_cons_self _ _)
    have htail : ∀ ai ∈ rest, (lookupOut ai.2.outputs).isSome → ai.2.version.isSome :=
      fun ai hmem => hv ai (List.mem_cons_of_mem _ hmem)
    have ihr := ih htail
    cases hOut : lookupOut i.outputs with
    | none =>
      simp [normalizeRegistry, List.filterMap_cons, entryRow, normalizeEntry, hOut, ihr]
    | some out =>
      cases hv2 : i.version with
      | none =>
        have hver := hhead (by rw [hOut]; rfl)
        rw [hv2] at hver
        simp at hver
      | some v =>
        simp [normalizeRegistry, List.filterMap_cons, entryRow, normalizeEntry, hOut, hv2, ihr,
          Except.map]

theorem mem_filterMap_attr (R : List (String × PackageInfo)) (r : Record)
    (h : r ∈ R.filterMap entryRow) : r.attr ∈ R.map Prod.fst := by
  rw [List.mem_filterMap] at h
  obtain ⟨⟨a, i⟩, hmem, hrow⟩ := h
  rw [entryRow_attr a i r hrow]
  exact List.mem_map_of_mem Prod.fst hmem

theorem countP_attr_zero (R : List (String × PackageInfo)) (a : String)
    (ha : a ∉ R.map Prod.fst) :
    (R.filterMap entryRow).countP (fun r => r.attr == a) = 0 := by
  rw [List.countP_eq_zero]
  intro r hr
  have := mem_filterMap_attr R r hr
  simp only [beq_iff_eq]
  intro hEq
  exact ha (hEq ▸ this)

theorem countP_records (R : List (String × PackageInfo))
    (hnd : (R.map Prod.fst).Nodup)
    (hv : ∀ ai ∈ R, (lookupOut ai.2.outputs).isSome → ai.2.version.isSome)
    (a : String) (info : PackageInfo) (hmem : (a, info) ∈ R) :
    (R.filterMap entryRow).countP (fun r => r.attr == a) =
      if (lookupOut info.outputs).isSome then 1 else 0 := by
  induction R with
  | nil => cases hmem
  | cons head rest ih =>
    obtain ⟨b, j⟩ := head
    rw [List.map_cons, List.nodup_cons] at hnd
    obtain ⟨hb, hndr⟩ := hnd
    have htail : ∀ ai ∈ rest, (lookupOut ai.2.outputs).isSome → ai.2.version.isSome :=
      fun ai hm => hv ai (List.mem_cons_of_mem _ hm)
    rcases List.mem_cons.mp hmem with hEq | hmemr
    · rw [Prod.mk.injEq] at hEq
      obtain ⟨rfl, rfl⟩ := hEq
      have hiff := normalizeEntry_record_iff a info (hv (a, info) hmem)
      cases hrow : entryRow (a, info) with
      | none =>
        rw [hrow] at hiff
        simp [List.filterMap_cons, hrow, ← hiff, countP_attr_zero rest a hb]
      | some r =>
        rw [hrow] at hiff
        have hattr := entryRow_attr a info r hrow
        simp [List.filterMap_cons, hrow, ← hiff, List.countP_cons, hattr,
          countP_attr_zero rest a hb]
    · have hamem : a ∈ rest.map Prod.fst := List.mem_map_of_mem Prod.fst hmemr
      have hba : ¬ (b = a) := fun hEq => hb (hEq ▸ hamem)
      cases hrow : entryRow (b, j) with
      | none =>
        simp only [List.filterMap_cons, hrow]
        exact ih hndr htail hmemr
      | some r =>
        have hattr := entryRow_attr b j r hrow
        simp only [List.filterMap_cons, hrow, List.countP_cons, hattr]
        rw [ih hndr htail hmemr]
        simp [hba]

/-- C6: for every registry with distinct attributes whose entries carrying an
"out" output all carry a version, normalization succeeds and produces exactly
one canonical record for each attribute whose entry has an "out" output and
no record for any attribute whose entry lacks one (excluded without error);
moreover every produced record's attribute is an attribute of the registry. -/
theorem normalization_completeness (R : List (String × PackageInfo))
    (hnd : (R.map Prod.fst).Nodup)
    (hv : ∀ ai ∈ R, (lookupOut ai.2.outputs).isSome → ai.2.version.isSome) :
    ∃ l, normalizeRegistry R = .ok l ∧
      (∀ a info, (a, info) ∈ R →
        l.countP (fun r => r.attr == a) =
          if (lookupOut info.outputs).isSome then 1 else 0) ∧
      ∀ r ∈ l, r.attr ∈ R.map Prod.fst := by
  refine ⟨R.filterMap entryRow, normalizeRegistry_eq_filterMap R hv, ?_, ?_⟩
  · exact fun a info hmem => countP_records R hnd hv a info hmem
  · exact fun r hr => mem_filterMap_attr R r hr

/-- A registry entry that has an "out" output but no version. -/
def infoNoVersion : PackageInfo :=
  { pname := none
    version := none
    outputs := [("out", "/nix/store/aaa-pkg")]
    meta := none }

/-- An indexable registry entry: an "out" output, a version and a pname. -/
def infoWithOut : PackageInfo :=
  { pname := some "firefox-bin"
    version := some "1.0"
    outputs := [("out", "/nix/store/abc-firefox")]
    meta := none }

/-- A non-installable registry entry: no "out" output. -/
def infoNoOut : PackageInfo :=
  { pname := none
    version := none
    outputs := [("dev", "/nix/store/dev-only")]
    meta := none }

/-- A small concrete registry exercising both normalization branches. -/
def registrySample : List (String × PackageInfo) :=
  [("firefox", infoWithOut), ("stdenv", infoNoOut)]

theorem normalization_completeness_witness :
    (((registrySample.map Prod.fst).Nodup ∧
        ∀ ai ∈ registrySample,
          (lookupOut ai.2.outputs).isSome → ai.2.version.isSome) ∧
      ∃ l, normalizeRegistry registrySample = .ok l ∧
        (∀ a info, (a, info) ∈ registrySample →
          l.countP (fun r => r.attr == a) =
            if (lookupOut info.outputs).isSome then 1 else 0) ∧
        ∀ r ∈ l, r.attr ∈ registrySample.map Prod.fst) :=
  ⟨⟨by decide, by decide⟩,
    normalization_completeness registrySample (by decide) (by decide)⟩

/-- C2 counterexample: on a concrete entry that has an "out" output but no
version, the normalization loop panics (an uncontrolled abort via
`info.version.as_ref().unwrap()`); it does not return the typed
`MissingVersion` error the claim asserts. -/
theorem missing_version_not_typed_cex :
    normalizeEntry "pkgA" infoNoVersion = .panic ∧
    normalizeEntry "pkgA" infoNoVersion ≠ .typedError .missingVersion := by
  constructor
  · decide
  · decide

/-- C2 (amended): for every registry entry that has an "out" output but whose
version field is absent, normalization aborts the build with an uncontrolled
panic (the unwrap of a missing version), not with a typed `MissingVersion`
error returned to the caller. -/
theorem missing_version_panics (attr : String) (info : PackageInfo)
    (hout : (lookupOut info.outputs).isSome = true) (hv : info.version = none) :
    normalizeEntry attr info = .panic := by
  unfold normalizeEntry
  cases hOut : lookupOut info.outputs with
  | none => rw [hOut] at hout; cases hout
  | some out => rw [hv]

theorem missing_version_panics_witness :
    ((lookupOut infoNoVersion.outputs).isSome = true ∧
      infoNoVersion.version = none) ∧
    normalizeEntry "pkgA" infoNoVersion = .panic :=
  ⟨⟨by decide, by decide⟩,
    missing_version_panics "pkgA" infoNoVersion (by decide) (by decide)⟩

/-- C8: for every registry entry that normalizes into a canonical record,
the record's name equals the entry's pname when present, and equals the
registry attribute when pname is absent. -/
theorem name_fallback (attr : String) (info : PackageInfo) (out v : String)
    (hout : lookupOut info.outputs = some out) (hv : info.version = some v) :
    ∃ r, normalizeEntry attr info = .record r ∧
      (info.pname = none → r.name = attr) ∧
      ∀ p, info.pname = some p → r.name = p := by
  refine ⟨_, by unfold normalizeEntry; rw [hout, hv], ?_, ?_⟩
  · intro hp
    simp [hp]
  · intro p hp
    simp [hp]

theorem name_fallback_witness :
    (lookupOut infoNoVersion.outputs = some "/nix/store/aaa-pkg" ∧
      ({ infoNoVersion with version := some "2.0" } : PackageInfo).version = some "2.0") ∧
    ∃ r, normalizeEntry "pkgA" { infoNoVersion with version := some "2.0" } = .record r ∧
      (({ infoNoVersion with version := some "2.0" } : PackageInfo).pname = none →
        r.name = "pkgA") ∧
      ∀ p, ({ infoNoVersion with version := some "2.0" } : PackageInfo).pname = some p →
        r.name = p :=
  ⟨⟨by decide, by decide⟩,
    name_fallback "pkgA" { infoNoVersion with version := some "2.0" }
      "/nix/store/aaa-pkg" "2.0" (by decide) (by decide)⟩

/-- A canonical package record (`rippkgs::Package`), as destructured by
`write_index` in `src/bin/index/main.rs`: the six persisted fields plus the
transient `score` (bound to `_score` by the destructuring and dropped by the
insert).  `attr` again stands for the field named after the registry
attribute. -/
structure Package where
  attr : String
  name : String
  version : String
  store_path : Option String
  description : Option String
  long_description : Option String
  score : Option Int
  deriving DecidableEq, Repr

/-- One row of the `packages` table as written by the INSERT in
`write_index`: exactly the columns attribute, name, version, storePath,
description, long_description. -/
structure PersistedRow where
  attr : String
  name : String
  version : String
  store_path : Option String
  description : Option String
  long_description : Option String
  deriving DecidableEq, Repr

/-- The parameter list of the INSERT in `write_index`: the destructured
`Package` fields, `score` excluded. -/
def toRow (p : Package) : PersistedRow :=
  { attr := p.attr
    name := p.name
    version := p.version
    store_path := p.store_path
    description := p.description
    long_description := p.long_description }

/-- The on-disk index database: whether the `packages` table exists, and
the committed rows. -/
structure DbFile where
  schemaCreated : Bool
  rows : List PersistedRow
  deriving DecidableEq, Repr

/-- Failure points inside `write_index`. -/
inductive WriteError where
  | schemaError
  | insertError
  deriving DecidableEq, Repr

/-- Failure points of the build pipeline in `main`. -/
inductive BuildError where
  | removeError
  | importError
  | writeError
  deriving DecidableEq, Repr

/-- The `write_index` function of `src/bin/index/main.rs`, acting on the
filesystem state `fs` (`none` when no index file exists at the output
path).  Failures of the storage collaborator are injected through
`schemaFails` (the `CREATE TABLE` statement) and `failAt` (the index of the
INSERT that fails, if any):

1. the connection is opened with `SQLITE_OPEN_CREATE`, creating an empty
   database file when none exists;
2. `CREATE TABLE packages ...` runs outside the transaction; it fails when
   a failure is injected or a packages table already exists in the file;
3. all INSERTs run inside one transaction; a failure at insert `i` with
   `i < pkgs.length` propagates via `?`, dropping the transaction and
   rolling every inserted row back; otherwise the transaction commits all
   rows. -/
def write_index (fs : Option DbFile) (pkgs : List Package)
    (schemaFails : Bool) (failAt : Option Nat) :
    Except WriteError Unit × Option DbFile :=
  let db0 : DbFile := fs.getD { schemaCreated := false, rows := [] }
  if schemaFails || db0.schemaCreated then (.error .schemaError, some db0)
  else
    match failAt with
    | some i =>
      if i < pkgs.length then
        (.error .insertError, some { schemaCreated := true, rows := db0.rows })
      else
        (.ok (), some { schemaCreated := true, rows := db0.rows ++ pkgs.map toRow })
    | none =>
      (.ok (), some { schemaCreated := true, rows := db0.rows ++ pkgs.map toRow })

/-- The build pipeline of `main` in `src/bin/index/main.rs`:

1. `fs::remove_file(output)`: success and `NotFound` both continue
   (`NotFound` arises exactly when no index file exists), so afterwards no
   index file exists; any other error (injected via `removeFails`) aborts
   the build with the file untouched;
2. the registry is imported and normalized into canonical records `pkgs`
   (`import_registry` / `index_nixpkgs`); a failure there is injected via
   `importFails` and aborts the build;
3. `write_index` persists the records. -/
def buildMain (fs0 : Option DbFile) (removeFails importFails : Bool)
    (pkgs : List Package) (schemaFails : Bool) (failAt : Option Nat) :
    Except BuildError Unit × Option DbFile :=
  if removeFails then (.error .removeError, fs0)
  else if importFails then (.error .importError, none)
  else
    match write_index none pkgs schemaFails failAt with
    | (.ok _, fs2) => (.ok (), fs2)
    | (.error _, fs2) => (.error .writeError, fs2)

/-- A pre-existing index database containing one committed row. -/
def priorDb : DbFile :=
  { schemaCreated := true
    rows := [{ attr := "oldpkg", name := "oldpkg", version := "0.1",
               store_path := some "old-oldpkg", description := none,
               long_description := none }] }

/-- A concrete canonical package record. -/
def pkgFirefox : Package :=
  { attr := "firefox", name := "firefox", version := "1.0",
    store_path := some "abc-firefox", description := none,
    long_description := none, score := none }

/-- A second concrete canonical package record. -/
def pkgHello : Package :=
  { attr := "hello", name := "hello", version := "2.12",
    store_path := some "def-hello", description := none,
    long_description := none, score := none }

/-- C1 counterexample: with a pre-existing index file and a storage failure
injected at the first insert, the build does not leave the store in its
prior pre-rebuild state: the previous index file was already deleted by
`main` and the table was created outside the transaction, so the store ends
as a fresh schema-only database — neither the old file unchanged nor no
file at all. -/
theorem transactional_build_cex :
    (buildMain (some priorDb) false false [pkgFirefox, pkgHello] false (some 0)).2 ≠
      some priorDb ∧
    (buildMain (some priorDb) false false [pkgFirefox, pkgHello] false (some 0)).2 ≠
      none ∧
    (buildMain (some priorDb) false false [pkgFirefox, pkgHello] false (some 0)).2 =
      some { schemaCreated := true, rows := [] } ∧
    (buildMain (some priorDb) false false [pkgFirefox, pkgHello] false (some 0)).1 =
      .error .writeError :=
  ⟨by decide, by decide, by decide, by decide⟩

/-- C1 (amended): the records are inserted inside one transaction with
all-or-nothing effect on the rows — a failure at any insert rolls back
every inserted row, and a failure-free build commits exactly the full
record list; but a partial failure does not leave the persistent store in
its prior pre-rebuild state: the previous index file is deleted before
writing, so after a mid-insert failure the store is a fresh schema-only
database file regardless of the prior state (in particular a failed fresh
build leaves a schema-only store file, not no file at all). -/
theorem transactional_build (fs0 : Option DbFile) (pkgs : List Package)
    (i : Nat) (hi : i < pkgs.length) :
    buildMain fs0 false false pkgs false (some i) =
      (.error .writeError, some { schemaCreated := true, rows := [] }) ∧
    buildMain fs0 false false pkgs false none =
      (.ok (), some { schemaCreated := true, rows := pkgs.map toRow }) := by
  constructor
  · simp [buildMain, write_index, hi]
  · simp [buildMain, write_index]

theorem transactional_build_witness :
    0 < [pkgFirefox, pkgHello].length ∧
    (buildMain (some priorDb) false false [pkgFirefox, pkgHello] false (some 0) =
      (.error .writeError, some { schemaCreated := true, rows := [] }) ∧
    buildMain (some priorDb) false false [pkgFirefox, pkgHello] false none =
      (.ok (), some { schemaCreated := true,
                      rows := [pkgFirefox, pkgHello].map toRow })) :=
  ⟨by decide,
    transactional_build (some priorDb) [pkgFirefox, pkgHello] 0 (by decide)⟩

/-- C9: the row persisted for a canonical package consists of exactly the
six fields attribute, name, version, storePath, description and
long_description; the transient `score` field is never written to the
store — the persisted row, and the whole stored state produced by
`write_index`, are unchanged under any change to the packages' scores. -/
theorem score_not_persisted (p : Package) (s : Option Int) (fs : Option DbFile)
    (pkgs : List Package) (sf : Bool) (fa : Option Nat) :
    toRow { p with score := s } = toRow p ∧
    toRow p = { attr := p.attr, name := p.name, version := p.version,
                store_path := p.store_path, description := p.description,
                long_description := p.long_description } ∧
    write_index fs (pkgs.map fun q => { q with score := s }) sf fa =
      write_index fs pkgs sf fa := by
  refine ⟨rfl, rfl, ?_⟩
  have hmap : (pkgs.map fun q => { q with score := s }).map toRow = pkgs.map toRow := by
    rw [List.map_map]
    rfl
  have hlen : (pkgs.map fun q => { q with score := s }).length = pkgs.length :=
    List.length_map pkgs _
  unfold write_index
  rw [hmap, hlen]

/-- C10: an index build to a path where no previous index file exists
succeeds — the `NotFound` outcome of deleting the previous index is treated
as success and the pipeline proceeds to a fully committed index; while any
other deletion error aborts the build before the registry is processed: the
outcome is the removal error with the store untouched, for every registry
content and every downstream failure injection. -/
theorem remove_not_found_ok (pkgs : List Package)
    (importFails schemaFails : Bool) (failAt : Option Nat)
    (fs0 : Option DbFile) :
    buildMain none false false pkgs false none =
      (.ok (), some { schemaCreated := true, rows := pkgs.map toRow }) ∧
    buildMain fs0 true importFails pkgs schemaFails failAt =
      (.error .removeError, fs0) := by
  constructor
  · simp [buildMain, write_index]
  · simp [buildMain]

/-- Modelled from the spec: case-insensitive tolerance of the external
fuzzy scorer (§4.4), as a case folding on character codes (upper-case
ASCII folded to lower-case). -/
def lowerCode (c : Char) : Nat :=
  if 65 ≤ c.toNat ∧ c.toNat ≤ 90 then c.toNat + 32 else c.toNat

/-- Modelled from the spec: the subsequence alignment of the fuzzy scorer.
The scorer used by the search binary is `SkimMatcherV2::fuzzy_match` from
the external `fuzzy_matcher` crate and is not part of this repository's
sources; §4.4 specifies that the pattern must match as a (not necessarily
contiguous) subsequence of the candidate, case-insensitively tolerant,
with "no match" (`none`) when no subsequence alignment exists, the numeric
score being an implementation-defined positive monotonic function.  This
model aligns greedily left to right and scores the number of matched
pattern characters. -/
def fuzzyAlign : List Char → List Char → Option Nat
  | [], _ => some 0
  | _ :: _, [] => none
  | p :: ps, c :: cs =>
    if lowerCode p = lowerCode c then (fuzzyAlign ps cs).map fun n => n + 1
    else fuzzyAlign (p :: ps) cs

/-- Modelled from the spec: `score(candidate, pattern)` of §4.4, the
`fuzzy_match` call on the external matcher. -/
def fuzzyMatch (candidate pattern : String) : Option Nat :=
  fuzzyAlign pattern.toList candidate.toList

theorem sublist_cons_ne {a b : Nat} {l1 l2 : List Nat} (h : a ≠ b) :
    List.Sublist (a :: l1) (b :: l2) ↔ List.Sublist (a :: l1) l2 := by
  constructor
  · intro hs
    cases hs with
    | cons _ hs => exact hs
    | cons₂ _ hs => exact absurd rfl h
  · intro hs
    exact hs.cons b

theorem fuzzyAlign_isSome_iff (cs ps : List Char) :
    (fuzzyAlign ps cs).isSome ↔ List.Sublist (ps.map lowerCode) (cs.map lowerCode) := by
  induction cs generalizing ps with
  | nil =>
    cases ps with
    | nil => simp [fuzzyAlign]
    | cons p ps => simp [fuzzyAlign]
  | cons c cs ih =>
    cases ps with
    | nil => simp [fuzzyAlign, List.nil_sublist]
    | cons p ps =>
      by_cases h : lowerCode p = lowerCode c
      · rw [show fuzzyAlign (p :: ps) (c :: cs) =
            (fuzzyAlign ps cs).map (fun n => n + 1) from if_pos h]
        rw [show ((fuzzyAlign ps cs).map fun n => n + 1).isSome = (fuzzyAlign ps cs).isSome by
          cases fuzzyAlign ps cs <;> rfl]
        rw [ih ps, List.map_cons, List.map_cons, h]
        exact (List.cons_sublist_cons).symm
      · rw [show fuzzyAlign (p :: ps) (c :: cs) = fuzzyAlign (p :: ps) cs from if_neg h]
        rw [ih (p :: ps), List.map_cons, List.map_cons]
        exact (sublist_cons_ne h).symm

/-- C4: the fuzzy scorer returns "no match" (`none`) exactly when the
pattern does not occur as a (not necessarily contiguous, case-folded)
subsequence of the candidate; in particular score("firefox", "ffx")
returns a value and score("firefox", "xyz") returns "no match". -/
theorem fuzzy_no_match_iff (candidate pattern : String) :
    (fuzzyMatch candidate pattern = none ↔
      ¬ List.Sublist (pattern.toList.map lowerCode) (candidate.toList.map lowerCode)) ∧
    (fuzzyMatch "firefox" "ffx").isSome = true ∧
    fuzzyMatch "firefox" "xyz" = none := by
  refine ⟨?_, by decide, by decide⟩
  rw [← fuzzyAlign_isSome_iff]
  unfold fuzzyMatch
  cases h : fuzzyAlign pattern.toList candidate.toList <;> simp [h]

/-- A stored row of the `packages` table as the search query streams it:
either it decodes into a `Package` (`Package::try_from(r)` succeeds) or
decoding fails (a corrupt row).  A corrupt row still has a name column,
which the SQL `ORDER BY fuzzy_score(name, ?1)` uses. -/
inductive StoredRow where
  | ok (p : Package)
  | corrupt (name : String)
  deriving DecidableEq, Repr

/-- The name column of a stored row. -/
def rowName : StoredRow → String
  | .ok p => p.name
  | .corrupt n => n

/-- The `scalar_fuzzy_score` SQL function of `src/bin/search/fuzzy.rs`:
the matcher's score with "no match" collapsed to 0, i.e.
`MATCHER.fuzzy_match(&choice, &pattern).unwrap_or(0)`. -/
def scalar_fuzzy_score (choice pattern : String) : Int :=
  ((fuzzyMatch choice pattern).map fun n => (n : Int)).getD 0

/-- The `ORDER BY fuzzy_score(name, query) DESC` ordering on stored rows:
a row may precede another when its score is at least as large. -/
def scoreRel (q : String) (a b : StoredRow) : Prop :=
  scalar_fuzzy_score (rowName b) q ≤ scalar_fuzzy_score (rowName a) q

instance (q : String) : DecidableRel (scoreRel q) :=
  fun _ _ => Int.decLe _ _

instance (q : String) : IsTotal StoredRow (scoreRel q) :=
  ⟨fun a b => Int.le_total (scalar_fuzzy_score (rowName b) q)
    (scalar_fuzzy_score (rowName a) q)⟩

instance (q : String) : IsTrans StoredRow (scoreRel q) :=
  ⟨fun _ _ _ h1 h2 => le_trans h2 h1⟩

/-- The same descending-score ordering, on decoded packages. -/
def pkgRel (q : String) (a b : Package) : Prop :=
  scalar_fuzzy_score b.name q ≤ scalar_fuzzy_score a.name q

instance (q : String) : DecidableRel (pkgRel q) :=
  fun _ _ => Int.decLe _ _

instance (q : String) : IsTotal Package (pkgRel q) :=
  ⟨fun a b => Int.le_total (scalar_fuzzy_score b.name q) (scalar_fuzzy_score a.name q)⟩

instance (q : String) : IsTrans Package (pkgRel q) :=
  ⟨fun _ _ _ h1 h2 => le_trans h2 h1⟩

/-- The row decode `Package::try_from(r)` inside the `query_map` call. -/
def decodeRow : StoredRow → Except Unit Package
  | .ok p => .ok p
  | .corrupt _ => .error ()

/-- The survival test for a decoded package, from the filter closure in
`search`: rows whose `store_path` is NULL are always dropped (stdenv or
bootstrapping); when `filter_built` is not set no further check happens;
otherwise the row survives only when `/nix/store/<store_path>` exists on
the local filesystem (`fsPaths` lists the paths that exist). -/
def keepPkg (filterBuilt : Bool) (fsPaths : List String) (p : Package) : Bool :=
  match p.store_path with
  | none => false
  | some sp => if !filterBuilt then true else fsPaths.contains ("/nix/store/" ++ sp)

/-- The filter closure inside `search` as applied to the decoded stream: a
decode error is carried on (kept, so that collection can propagate it);
a decoded package survives per `keepPkg`. -/
def keepRow (filterBuilt : Bool) (fsPaths : List String) : Except Unit Package → Bool
  | .error _ => true
  | .ok p => keepPkg filterBuilt fsPaths p

/-- Rust's `collect::<Result<Vec<_>, _>>()`: the list of values when every
element is ok, else the first error. -/
def collectResults : List (Except Unit Package) → Except Unit (List Package)
  | [] => .ok []
  | .error e :: _ => .error e
  | .ok p :: rest => (collectResults rest).map fun l => p :: l

/-- The stream of rows the search query produces before collection: all
stored rows ordered by `fuzzy_score(name, query)` descending, decoded by
`Package::try_from`, filtered by the closure, and truncated to
`numResults` — in exactly that order (`.take` runs before `.collect`). -/
def keptWindow (query : String) (rows : List StoredRow) (numResults : Nat)
    (filterBuilt : Bool) (fsPaths : List String) : List (Except Unit Package) :=
  (((List.insertionSort (scoreRel query) rows).map decodeRow).filter
      (keepRow filterBuilt fsPaths)).take numResults

/-- The `search` function of `src/bin/search/fuzzy.rs`: the kept window of
the ordered, decoded, filtered row stream, collected into either the first
decode error or the list of result packages. -/
def search (query : String) (rows : List StoredRow) (numResults : Nat)
    (filterBuilt : Bool) (fsPaths : List String) : Except Unit (List Package) :=
  collectResults (keptWindow query rows numResults filterBuilt fsPaths)

theorem collectResults_error_iff (l : List (Except Unit Package)) :
    collectResults l = .error () ↔ .error () ∈ l := by
  induction l with
  | nil => simp [collectResults]
  | cons x rest ih =>
    cases x with
    | error e => cases e; simp [collectResults]
    | ok p =>
      simp only [collectResults, List.mem_cons]
      constructor
      · intro h
        cases hr : collectResults rest with
        | ok l2 => rw [hr] at h; simp [Except.map] at h
        | error e2 => cases e2; exact Or.inr (ih.mp hr)
      · intro h
        rcases h with h | h
        · cases h
        · rw [ih.mpr h]
          rfl

theorem collectResults_map_ok (l : List Package) :
    collectResults (l.map Except.ok) = .ok l := by
  induction l with
  | nil => rfl
  | cons p rest ih => simp [collectResults, ih, Except.map]

theorem orderedInsert_map_ok (q : String) (p : Package) (l : List Package) :
    List.orderedInsert (scoreRel q) (StoredRow.ok p) (l.map StoredRow.ok) =
      (List.orderedInsert (pkgRel q) p l).map StoredRow.ok := by
  induction l with
  | nil => rfl
  | cons b bs ih =>
    by_cases h : scalar_fuzzy_score b.name q ≤ scalar_fuzzy_score p.name q
    · simp [List.orderedInsert, scoreRel, pkgRel, rowName, h]
    · simp [List.orderedInsert, scoreRel, pkgRel, rowName, h, ih]

theorem insertionSort_map_ok (q : String) (l : List Package) :
    List.insertionSort (scoreRel q) (l.map StoredRow.ok) =
      (List.insertionSort (pkgRel q) l).map StoredRow.ok := by
  induction l with
  | nil => rfl
  | cons p rest ih =>
    simp only [List.map_cons, List.insertionSort, ih, orderedInsert_map_ok]

theorem search_ok_rows (q : String) (pkgs : List Package) (N : Nat)
    (fb : Bool) (fs : List String) :
    search q (pkgs.map StoredRow.ok) N fb fs =
      .ok (((List.insertionSort (pkgRel q) pkgs).filter (keepPkg fb fs)).take N) := by
  unfold search keptWindow
  rw [insertionSort_map_ok, List.map_map]
  rw [show decodeRow ∘ StoredRow.ok = Except.ok from rfl]
  rw [List.filter_map]
  rw [show keepRow fb fs ∘ Except.ok = keepPkg fb fs from rfl]
  rw [← List.map_take]
  exact collectResults_map_ok _

/-- C7: for every well-formed stored index (all rows decodable), every
query and every result-count limit `N`, the search succeeds and returns
the `N`-prefix of a descending-score ordering of the surviving rows; in
particular the returned sequence has length
min(N, number of surviving records). -/
theorem search_ranking (q : String) (pkgs : List Package) (N : Nat)
    (fb : Bool) (fs : List String) :
    ∃ rankedSurvivors : List Package,
      rankedSurvivors.Perm (pkgs.filter (keepPkg fb fs)) ∧
      rankedSurvivors.Pairwise (fun a b =>
        scalar_fuzzy_score b.name q ≤ scalar_fuzzy_score a.name q) ∧
      search q (pkgs.map StoredRow.ok) N fb fs = .ok (rankedSurvivors.take N) ∧
      (rankedSurvivors.take N).length =
        min N (pkgs.filter (keepPkg fb fs)).length := by
  refine ⟨(List.insertionSort (pkgRel q) pkgs).filter (keepPkg fb fs), ?_, ?_, ?_, ?_⟩
  · exact (List.perm_insertionSort (pkgRel q) pkgs).filter _
  · exact List.Pairwise.filter _ (List.sorted_insertionSort (pkgRel q) pkgs)
  · exact search_ok_rows q pkgs N fb fs
  · rw [List.length_take,
      ((List.perm_insertionSort (pkgRel q) pkgs).filter (keepPkg fb fs)).length_eq]

/-- C5: the search never excludes a surviving row merely because the query
fails to fuzzy-match its name: a non-matching name is assigned score 0,
which is the minimum possible score (so such rows rank last), and a query
that matches no stored name at all still returns
min(N, number of surviving rows) results rather than an empty result. -/
theorem no_match_keeps_rows (q : String) (pkgs : List Package) (N : Nat)
    (fb : Bool) (fs : List String)
    (hnone : ∀ p ∈ pkgs, fuzzyMatch p.name q = none) :
    (∀ p ∈ pkgs, scalar_fuzzy_score p.name q = 0) ∧
    (∀ c c' : String, fuzzyMatch c q = none →
      scalar_fuzzy_score c q ≤ scalar_fuzzy_score c' q) ∧
    ∃ l, search q (pkgs.map StoredRow.ok) N fb fs = .ok l ∧
      l.length = min N (pkgs.filter (keepPkg fb fs)).length := by
  refine ⟨?_, ?_, ?_⟩
  · intro p hp
    simp [scalar_fuzzy_score, hnone p hp]
  · intro c c' hc
    simp only [scalar_fuzzy_score, hc, Option.map_none', Option.getD_none]
    cases h' : fuzzyMatch c' q with
    | none => simp
    | some n => simp [Int.natCast_nonneg]
  · refine ⟨_, search_ok_rows q pkgs N fb fs, ?_⟩
    rw [List.length_take,
      ((List.perm_insertionSort (pkgRel q) pkgs).filter (keepPkg fb fs)).length_eq]

theorem no_match_keeps_rows_witness :
    (∀ p ∈ [pkgFirefox, pkgHello], fuzzyMatch p.name "qqq" = none) ∧
    ((∀ p ∈ [pkgFirefox, pkgHello], scalar_fuzzy_score p.name "qqq" = 0) ∧
      (∀ c c' : String, fuzzyMatch c "qqq" = none →
        scalar_fuzzy_score c "qqq" ≤ scalar_fuzzy_score c' "qqq") ∧
      ∃ l, search "qqq" ([pkgFirefox, pkgHello].map StoredRow.ok) 5 false [] = .ok l ∧
        l.length = min 5 ([pkgFirefox, pkgHello].filter (keepPkg false [])).length) :=
  ⟨by decide, no_match_keeps_rows "qqq" [pkgFirefox, pkgHello] 5 false [] (by decide)⟩

/-- A surviving package named "aa". -/
def pkgAA : Package :=
  { attr := "aa", name := "aa", version := "1", store_path := some "aa-path",
    description := none, long_description := none, score := none }

/-- A surviving package named "ab". -/
def pkgAB : Package :=
  { attr := "ab", name := "ab", version := "1", store_path := some "ab-path",
    description := none, long_description := none, score := none }

/-- A stored index with two decodable rows and one corrupt row whose name
column scores 0 against the query "a". -/
def rowsWithCorrupt : List StoredRow :=
  [.ok pkgAA, .ok pkgAB, .corrupt "zz"]

/-- C3 counterexample: a stored index containing a corrupt row on which
the search nevertheless succeeds: with result limit 2 the corrupt row
sorts past the limit, `take` drops it before `collect` can see it, and
the search returns a full result list instead of failing as a whole. -/
theorem corrupt_row_skipped_cex :
    StoredRow.corrupt "zz" ∈ rowsWithCorrupt ∧
    search "a" rowsWithCorrupt 2 false [] = .ok [pkgAA, pkgAB] :=
  ⟨by decide, by decide⟩

/-- C3 (amended): a decode failure aborts the search exactly when the
corrupt row falls within the first `numResults` entries of the filtered,
score-ordered row stream — `.take(num_results)` runs before the
`collect` that propagates errors, so a corrupt row wholly past the
result-count limit is silently dropped and the search succeeds. -/
theorem corrupt_row_fatal_iff (q : String) (rows : List StoredRow) (N : Nat)
    (fb : Bool) (fs : List String) :
    (search q rows N fb fs = .error () ↔
      .error () ∈ keptWindow q rows N fb fs) ∧
    (Except.error () ∉ keptWindow q rows N fb fs →
      ∃ l, search q rows N fb fs = .ok l) := by
  refine ⟨collectResults_error_iff _, ?_⟩
  intro hmem
  cases h : search q rows N fb fs with
  | error e =>
    cases e
    exact absurd ((collectResults_error_iff _).mp h) hmem
  | ok l => exact ⟨l, rfl⟩

theorem corrupt_row_fatal_iff_witness :
    ((search "a" rowsWithCorrupt 3 false [] = .error () ↔
        .error () ∈ keptWindow "a" rowsWithCorrupt 3 false []) ∧
      (Except.error () ∉ keptWindow "a" rowsWithCorrupt 3 false [] →
        ∃ l, search "a" rowsWithCorrupt 3 false [] = .ok l)) ∧
    .error () ∈ keptWindow "a" rowsWithCorrupt 3 false [] ∧
    search "a" rowsWithCorrupt 3 false [] = .error () :=
  ⟨corrupt_row_fatal_iff "a" rowsWithCorrupt 3 false [], by decide, by decide⟩

theorem fuzzy_no_match_iff_witness :
    (fuzzyMatch "firefox" "xyz" = none ↔
      ¬ List.Sublist ("xyz".toList.map lowerCode) ("firefox".toList.map lowerCode)) ∧
    (fuzzyMatch "firefox" "ffx").isSome = true ∧
    fuzzyMatch "firefox" "xyz" = none :=
  fuzzy_no_match_iff "firefox" "xyz"
